import Mathlib

/-!
Shallow embedding of the leader-hotkeys plugin core (src/src/main.ts, with the
variant revisions in src/unnamed/part_003 where they differ).

Conventions of the embedding:
* TypeScript `Optional<T> = T | undefined | null` is modelled as
  `Option (Option T)`: `none` is `undefined`, `some none` is `null`,
  `some (some v)` is a present value.  The `undefined` / `null` distinction is
  load-bearing: `Trie.add` tests `value !== undefined`, and `TrieNode.addChild`
  writes `null` into the parent's value slot.
* `KeyPress.key` is `Option String`: `none` models a null/undefined `key` of a
  malformed event (the two JS missing values behave identically in every
  claim-relevant code path; string coercion renders the missing key as "null").
* The JS `Map` of trie children is modelled as an insertion-ordered entry list
  (`TrieChildren`), with `get` returning the entry of the (unique) matching key
  and `set` replacing in place or appending at the end, exactly like `Map.set`.
* Mutating methods are translated to functions returning the updated value;
  `throw new Error('Duplicate keymap')` in `Trie.add` is modelled by returning
  a `Bool` flag (`true` = the call threw) next to the updated root, since the
  partially applied mutations survive the throw in the JS original.
-/

namespace LeaderHotkeys

/-- TypeScript `Optional<T> = T | undefined | null`:
`none` = undefined, `some none` = null, `some (some v)` = value. -/
abbrev Optional (α : Type) : Type := Option (Option α)

/-- `enum PressType { NoKey, SpecialKey, NormalKey }` from main.ts. -/
inductive PressType where
  | NoKey
  | SpecialKey
  | NormalKey
deriving DecidableEq, Repr

/-- `class KeyPress` of main.ts: a key name plus four modifier flags.
`key` is `Option String` so that the defensive null/undefined check of
`classification` is representable. -/
structure KeyPress where
  key : Option String
  shift : Bool
  alt : Bool
  ctrl : Bool
  meta : Bool
deriving DecidableEq, Repr

/-- `KeyPress.just(key)`: no modifiers. -/
def KeyPress.just (k : String) : KeyPress :=
  ⟨some k, false, false, false, false⟩

/-- `KeyPress.ctrlAlt(key)`: ctrl and alt set. -/
def KeyPress.ctrlAlt (k : String) : KeyPress :=
  ⟨some k, false, true, true, false⟩

/-- JS string coercion of the key field (`'' + key`); a missing key renders as
the string "null". -/
def keyOrNull : Option String → String
  | some s => s
  | none => "null"

/-- `KeyPress.text()` from main.ts: `metaRepr + ctrlRepr + altRepr + shiftRepr
+ this.key` with `'⌘ + '`, `'Ctrl + '`, `'Alt + '`, `'⇧ + '` as the four
modifier markers. -/
def KeyPress.text (p : KeyPress) : String :=
  (if p.meta then "⌘ + " else "") ++
    (if p.ctrl then "Ctrl + " else "") ++
    (if p.alt then "Alt + " else "") ++
    (if p.shift then "⇧ + " else "") ++
    keyOrNull p.key

/-- `KeyPress.serialize()` from main.ts: returns `this.text()`. -/
def KeyPress.serialize (p : KeyPress) : String :=
  p.text

/-- `KeyPress.classification()` from main.ts (lines 1004-1022): NoKey for a
missing key or a bare modifier identifier, SpecialKey for Enter or Escape
(NOT Backspace in this revision), NormalKey otherwise. -/
def KeyPress.classification (p : KeyPress) : PressType :=
  if p.key = none ∨ p.key = some "Alt" ∨ p.key = some "Control" ∨
      p.key = some "Shift" ∨ p.key = some "Meta" ∨ p.key = some "AltGraph" then
    PressType.NoKey
  else if p.key = some "Enter" ∨ p.key = some "Escape" then
    PressType.SpecialKey
  else
    PressType.NormalKey

/-- `class KeyMap` of main.ts: a command id and its press sequence. -/
structure KeyMap where
  commandID : String
  sequence : List KeyPress
deriving DecidableEq, Repr

mutual
/-- `class TrieNode<T>` of main.ts specialised to `T = KeyMap`: an optional
value slot (undefined / null / value) and the `Map` of children. -/
inductive TrieNode where
  | mk : Optional KeyMap → TrieChildren → TrieNode

/-- The insertion-ordered entries of the JS `Map<string, TrieNode>`. -/
inductive TrieChildren where
  | nil : TrieChildren
  | cons : String → TrieNode → TrieChildren → TrieChildren
end

/-- The `value` field of a `TrieNode`. -/
def TrieNode.value : TrieNode → Optional KeyMap
  | .mk v _ => v

/-- The `children` field of a `TrieNode`. -/
def TrieNode.children : TrieNode → TrieChildren
  | .mk _ c => c

/-- `Map.get(key)` on the children map. -/
def TrieChildren.get : TrieChildren → String → Option TrieNode
  | .nil, _ => none
  | .cons k c rest, key => if k = key then some c else rest.get key

/-- `Map.set(key, child)`: replace in place if the key exists, else append. -/
def TrieChildren.set : TrieChildren → String → TrieNode → TrieChildren
  | .nil, key, child => .cons key child .nil
  | .cons k c rest, key, child =>
      if k = key then .cons key child rest else .cons k c (rest.set key child)

/-- `Map.size === 0` on the children map. -/
def TrieChildren.isEmpty : TrieChildren → Bool
  | .nil => true
  | .cons _ _ _ => false

/-- `TrieNode.isLeaf()`: no children. -/
def TrieNode.isLeaf (t : TrieNode) : Bool :=
  t.children.isEmpty

mutual
/-- `TrieNode.leaves()`: a leaf returns itself, an inner node concatenates its
children's leaves in map order. -/
def TrieNode.leaves : TrieNode → List TrieNode
  | .mk v .nil => [.mk v .nil]
  | .mk _v (.cons k c rest) => TrieChildren.leavesOf (.cons k c rest)

/-- Helper of `TrieNode.leaves`: the JS `forEach`/`concat` loop over entries. -/
def TrieChildren.leavesOf : TrieChildren → List TrieNode
  | .nil => []
  | .cons _ c rest => c.leaves ++ TrieChildren.leavesOf rest
end

/-- `TrieNode.leafValues()`: the (possibly undefined/null) values of the
leaves. -/
def TrieNode.leafValues (t : TrieNode) : List (Optional KeyMap) :=
  t.leaves.map TrieNode.value

/-- The root of a freshly constructed `Trie`. -/
def emptyTrie : TrieNode :=
  .mk none .nil

/-- `Trie.add` of main.ts (lines 857-870), on the already-serialized edge
labels.  Walks/creates one child per label; every step goes through
`TrieNode.addChild`, which sets the parent's value slot to null; at the end it
throws `'Duplicate keymap'` when the terminal value is not undefined, else
stores the composite.  The returned Bool is `true` iff the call threw; the
structural mutations done before the throw are kept, as in JS. -/
def addGo : TrieNode → List String → KeyMap → TrieNode × Bool
  | node, [], v =>
      match node.value with
      | some _ => (node, true)
      | none => (.mk (some (some v)) node.children, false)
  | node, k :: rest, v =>
      let child := match node.children.get k with
        | some c => c
        | none => .mk none .nil
      let r := addGo child rest v
      (.mk (some none) (node.children.set k r.1), r.2)

/-- `Trie.add(composite)`: serializes each press of the keymap's sequence and
inserts along those labels. -/
def Trie.add (root : TrieNode) (km : KeyMap) : TrieNode × Bool :=
  addGo root (km.sequence.map KeyPress.serialize) km

/-- `Trie.bestMatch` walk on already-serialized labels: follow one edge per
label, `none` as soon as an edge is missing. -/
def bestMatchKeys : TrieNode → List String → Option TrieNode
  | node, [] => some node
  | node, key :: rest =>
      match node.children.get key with
      | none => none
      | some c => bestMatchKeys c rest

/-- `Trie.bestMatch(sequence)` of main.ts (lines 872-884). -/
def Trie.bestMatch (root : TrieNode) (seq : List KeyPress) : Option TrieNode :=
  bestMatchKeys root (seq.map KeyPress.serialize)

/-- `enum MatchType` of main.ts. -/
inductive MatchType where
  | NoMatch
  | PartialMatch
  | FullMatch
deriving DecidableEq, Repr

/-- `enum MatchMachineState` of main.ts. -/
inductive MatchMachineState where
  | NoMatch
  | StartedMatch
  | RetainedMatch
  | ImprovedMatch
  | SuccessMatch
  | InvalidMatch
deriving DecidableEq, Repr

/-- `class MatchMachine` of main.ts: the trie it matches against plus the
three mutable fields. -/
structure MatchMachine where
  trie : TrieNode
  currentState : MatchMachineState
  currentSequence : List KeyPress
  currentMatches : List (Optional KeyMap)

/-- The `MatchMachine` constructor: state NoMatch, empty sequence and
matches. -/
def mkMatchMachine (t : TrieNode) : MatchMachine :=
  ⟨t, .NoMatch, [], []⟩

/-- `MatchMachine.classify(bestMatch)` of main.ts. -/
def MatchMachine.classify : Option TrieNode → MatchType
  | none => .NoMatch
  | some n => if n.isLeaf then .FullMatch else .PartialMatch

/-- `this.currentMatches = bestMatch ? bestMatch.leafValues() : []` from
`MatchMachine.advance`. -/
def matchesFor (t : TrieNode) (seq : List KeyPress) : List (Optional KeyMap) :=
  match Trie.bestMatch t seq with
  | some n => n.leafValues
  | none => []

/-- The body of `MatchMachine.advance` (main.ts lines 1099-1134) for the four
non-terminal states: push the press, recompute `bestMatch`/`currentMatches`,
then switch on the current state (a pop undoes the push, so a popped branch
keeps the old sequence).  The terminal states are handled by
`MatchMachine.advance`; this helper returns them unchanged. -/
def MatchMachine.advanceCore (m : MatchMachine) (keypress : KeyPress) :
    MatchMachine :=
  let seq1 := m.currentSequence ++ [keypress]
  let mt := MatchMachine.classify (Trie.bestMatch m.trie seq1)
  let ms := matchesFor m.trie seq1
  match m.currentState with
  | .NoMatch =>
      if mt = .NoMatch then ⟨m.trie, .NoMatch, m.currentSequence, ms⟩
      else if mt = .FullMatch then ⟨m.trie, .SuccessMatch, seq1, ms⟩
      else ⟨m.trie, .StartedMatch, seq1, ms⟩
  | .StartedMatch | .RetainedMatch | .ImprovedMatch =>
      if keypress.classification = .NoKey then
        ⟨m.trie, .RetainedMatch, m.currentSequence, ms⟩
      else if mt = .NoMatch then ⟨m.trie, .InvalidMatch, seq1, ms⟩
      else if mt = .FullMatch then ⟨m.trie, .SuccessMatch, seq1, ms⟩
      else ⟨m.trie, .ImprovedMatch, seq1, ms⟩
  | .SuccessMatch | .InvalidMatch => m

/-- `MatchMachine.advance(keypress)` of main.ts (lines 1099-1143).  In the
terminal states the JS code clears the three fields and re-runs `advance` on
the same press; since the cleared machine is exactly the fresh machine, that
self-call is the non-terminal body on the fresh state (the push and the
`bestMatch`/`currentMatches` computation of the outer call are overwritten by
the reset before anything reads them). -/
def MatchMachine.advance (m : MatchMachine) (p : KeyPress) : MatchMachine :=
  if m.currentState = .SuccessMatch ∨ m.currentState = .InvalidMatch then
    MatchMachine.advanceCore ⟨m.trie, .NoMatch, [], []⟩ p
  else
    MatchMachine.advanceCore m p

/-- `MatchMachine.allMatches()`. -/
def MatchMachine.allMatches (m : MatchMachine) : List (Optional KeyMap) :=
  m.currentMatches

/-- `MatchMachine.fullMatch()` of main.ts (lines 1149-1165): `some none` is
the JS `null` result; `currentMatches[0]` is modelled by `getD 0 none`
(out-of-bounds indexing yields `undefined` = `none`, though the guard makes
that unreachable). -/
def MatchMachine.fullMatch (m : MatchMachine) : Optional KeyMap :=
  let numMatches := m.allMatches.length
  let isFullMatch := m.currentState = .SuccessMatch
  if isFullMatch ∧ numMatches ≠ 1 then some none
  else if isFullMatch ∧ numMatches = 1 then m.currentMatches.getD 0 none
  else some none

/-- Feeding a list of presses, in order, to a fresh `MatchMachine` over `t`. -/
def run (t : TrieNode) (ps : List KeyPress) : MatchMachine :=
  ps.foldl MatchMachine.advance (mkMatchMachine t)

/-- `enum RegisterMachineState` of main.ts. -/
inductive RegisterMachineState where
  | NoKeys
  | FirstKey
  | AddedKeys
  | RetainedKeys
  | DeletedKey
  | PendingAddition
  | PendingDeletion
  | FinishedRegistering
deriving DecidableEq, Repr

/-- `class RegisterMachine` of main.ts: state plus accumulated sequence. -/
structure RegisterMachine where
  currentState : RegisterMachineState
  currentSequence : List KeyPress
deriving DecidableEq, Repr

/-- The body of `RegisterMachine.advance` (main.ts lines 1192-1249) for the
non-`FinishedRegistering` states; JS `pop()` is `dropLast` (a no-op on an
empty array, like in JS).  `FinishedRegistering` is handled by
`RegisterMachine.advance`; this helper returns it unchanged. -/
def RegisterMachine.advanceCore (m : RegisterMachine) (e : KeyPress) :
    RegisterMachine :=
  match m.currentState with
  | .NoKeys | .FirstKey | .RetainedKeys | .DeletedKey | .AddedKeys =>
      match e.classification with
      | .NoKey => ⟨.RetainedKeys, m.currentSequence⟩
      | .SpecialKey =>
          ⟨if e.key = some "Enter" then .PendingAddition else .PendingDeletion,
            m.currentSequence ++ [e]⟩
      | .NormalKey =>
          let s := m.currentSequence ++ [e]
          ⟨if s.length = 1 then .FirstKey else .AddedKeys, s⟩
  | .PendingDeletion =>
      if e.key = some "Enter" ∧ e.ctrl ∧ e.alt then
        ⟨.FinishedRegistering, m.currentSequence.dropLast⟩
      else if e.key = some "Enter" then ⟨.AddedKeys, m.currentSequence⟩
      else ⟨.DeletedKey, m.currentSequence.dropLast.dropLast⟩
  | .PendingAddition =>
      if e.key = some "Enter" ∧ e.ctrl ∧ e.alt then
        ⟨.FinishedRegistering, m.currentSequence.dropLast⟩
      else if e.key = some "Enter" then ⟨.AddedKeys, m.currentSequence⟩
      else ⟨.RetainedKeys, m.currentSequence.dropLast⟩
  | .FinishedRegistering => m

/-- `RegisterMachine.advance(event)` of main.ts: on `FinishedRegistering` it
resets (state NoKeys, empty sequence) and reprocesses the same press, which
lands in the non-terminal body. -/
def RegisterMachine.advance (m : RegisterMachine) (e : KeyPress) :
    RegisterMachine :=
  if m.currentState = .FinishedRegistering then
    RegisterMachine.advanceCore ⟨.NoKeys, []⟩ e
  else
    RegisterMachine.advanceCore m e

/-- Feeding a list of presses, in order, to a fresh `RegisterMachine`. -/
def rRun (ps : List KeyPress) : RegisterMachine :=
  ps.foldl RegisterMachine.advance ⟨.NoKeys, []⟩

namespace P3

/-- `KeyPress.classification` of the src/unnamed/part_003 revision (lines
179-200): identical to main.ts except that `Backspace` is also a
SpecialKey. -/
def classification (p : KeyPress) : PressType :=
  if p.key = none ∨ p.key = some "Alt" ∨ p.key = some "Control" ∨
      p.key = some "Shift" ∨ p.key = some "Meta" ∨ p.key = some "AltGraph" then
    PressType.NoKey
  else if p.key = some "Enter" ∨ p.key = some "Escape" ∨
      p.key = some "Backspace" then
    PressType.SpecialKey
  else
    PressType.NormalKey

/-- `enum RegistrationState` of the part_003 revision. -/
inductive RegistrationState where
  | NoKeys
  | FirstKey
  | AddedKeys
  | ContinuingMatching
  | DeletedKey
  | PendingAddition
  | PendingDeletion
  | FinishedRegistering
deriving DecidableEq, Repr

/-- `class RegisterMachine` of the part_003 revision. -/
structure RegisterMachine where
  currentState : RegistrationState
  currentSequence : List KeyPress
deriving DecidableEq, Repr

/-- The body of part_003's `RegisterMachine.advance` (lines 527-587) for the
non-`FinishedRegistering` states.  The two pending states share one case:
Ctrl+Alt+Enter finishes (popping the pending special key), plain Enter keeps
the special key literal, Backspace cancels the pending addition (pop once) or
confirms the pending deletion (pop twice), and any other press explicitly
leaves the machine unchanged. -/
def RegisterMachine.advanceCore (m : RegisterMachine) (e : KeyPress) :
    RegisterMachine :=
  match m.currentState with
  | .NoKeys | .FirstKey | .ContinuingMatching | .DeletedKey | .AddedKeys =>
      match P3.classification e with
      | .NoKey => ⟨.ContinuingMatching, m.currentSequence⟩
      | .SpecialKey =>
          ⟨if e.key = some "Enter" then .PendingAddition else .PendingDeletion,
            m.currentSequence ++ [e]⟩
      | .NormalKey =>
          let s := m.currentSequence ++ [e]
          ⟨if s.length = 1 then .FirstKey else .AddedKeys, s⟩
  | .PendingDeletion | .PendingAddition =>
      if e.key = some "Enter" ∧ e.ctrl ∧ e.alt then
        ⟨.FinishedRegistering, m.currentSequence.dropLast⟩
      else if e.key = some "Enter" then ⟨.AddedKeys, m.currentSequence⟩
      else if e.key = some "Backspace" ∧ m.currentState = .PendingAddition then
        ⟨.ContinuingMatching, m.currentSequence.dropLast⟩
      else if e.key = some "Backspace" ∧ m.currentState = .PendingDeletion then
        ⟨.DeletedKey, m.currentSequence.dropLast.dropLast⟩
      else ⟨m.currentState, m.currentSequence⟩
  | .FinishedRegistering => m

/-- part_003's `RegisterMachine.advance`: on `FinishedRegistering` the state
becomes `ContinuingMatching` (keeping the accumulated sequence) and the press
is reprocessed. -/
def RegisterMachine.advance (m : RegisterMachine) (e : KeyPress) :
    RegisterMachine :=
  if m.currentState = .FinishedRegistering then
    RegisterMachine.advanceCore ⟨.ContinuingMatching, m.currentSequence⟩ e
  else
    RegisterMachine.advanceCore m e

end P3

/-! Canonical-string analysis: the four modifier markers of `KeyPress.text`,
as character lists, and a decoder that strips them back off.  Used to settle
injectivity of `serialize`. -/

/-- The characters of the meta marker `'⌘ + '`. -/
def metaTok : List Char := ['⌘', ' ', '+', ' ']

/-- The characters of the ctrl marker `'Ctrl + '`. -/
def ctrlTok : List Char := ['C', 't', 'r', 'l', ' ', '+', ' ']

/-- The characters of the alt marker `'Alt + '`. -/
def altTok : List Char := ['A', 'l', 't', ' ', '+', ' ']

/-- The characters of the shift marker `'⇧ + '`. -/
def shiftTok : List Char := ['⇧', ' ', '+', ' ']

/-- Strip `tok` from the front of `s`, or fail. -/
def takeTok : List Char → List Char → Option (List Char)
  | [], s => some s
  | _ :: _, [] => none
  | t :: ts, c :: cs => if c = t then takeTok ts cs else none

/-- Strip `tok` if present, reporting whether it was. -/
def stripTok (tok s : List Char) : Bool × List Char :=
  match takeTok tok s with
  | some r => (true, r)
  | none => (false, s)

/-- Greedy decoder for `KeyPress.text` output: recover the four modifier
flags and the raw key characters. -/
def decodeFlags (s0 : List Char) : Bool × Bool × Bool × Bool × List Char :=
  let r1 := stripTok metaTok s0
  let r2 := stripTok ctrlTok r1.2
  let r3 := stripTok altTok r2.2
  let r4 := stripTok shiftTok r3.2
  (r1.1, r2.1, r3.1, r4.1, r4.2)

/-- The single-path trie produced by inserting one keymap into an empty trie:
every node along the path carries the null value slot written by `addChild`,
and the terminal leaf carries the keymap. -/
def pathTrie : List String → KeyMap → TrieNode
  | [], v => .mk (some (some v)) .nil
  | k :: rest, v => .mk (some none) (.cons k (pathTrie rest v) .nil)

/-- Concrete two-press binding used by counterexamples and witnesses. -/
def kmAB : KeyMap := ⟨"cmd1", [KeyPress.just "a", KeyPress.just "b"]⟩

/-- Concrete one-press binding whose sequence is a strict prefix of
`kmAB`'s. -/
def kmA : KeyMap := ⟨"cmd2", [KeyPress.just "a"]⟩

/-- The trie holding just `kmAB`. -/
def exTrie : TrieNode := (Trie.add emptyTrie kmAB).1

/-- A bare Shift keystroke as delivered by a keydown event (`key: "Shift"`,
`shiftKey: true`). -/
def shiftPress : KeyPress := ⟨some "Shift", true, false, false, false⟩

/-- The machine over `exTrie` after pressing `a`: one press into the `[a, b]`
binding. -/
def exM1 : MatchMachine := (mkMatchMachine exTrie).advance (KeyPress.just "a")

/-- `exM1` after an additional bare Shift press. -/
def exM2 : MatchMachine := exM1.advance shiftPress

/-- The four registration presses of the claim scenario:
`h`, `Enter`, `Backspace`, `Ctrl+Alt+Enter`. -/
def c5Presses : List KeyPress :=
  [KeyPress.just "h", KeyPress.just "Enter", KeyPress.just "Backspace",
    KeyPress.ctrlAlt "Enter"]

/-- Feeding a list of presses, in order, to a fresh part_003
`RegisterMachine`. -/
def p3Run (ps : List KeyPress) : P3.RegisterMachine :=
  ps.foldl P3.RegisterMachine.advance ⟨.NoKeys, []⟩

end LeaderHotkeys

/-! # Verification

Lemmas and claim theorems about the embedding above. -/

namespace LeaderHotkeys

lemma text_data (p : KeyPress) :
    (p.text).data =
      cond p.meta metaTok [] ++ (cond p.ctrl ctrlTok [] ++
        (cond p.alt altTok [] ++ (cond p.shift shiftTok [] ++
          (keyOrNull p.key).data))) := by
  obtain ⟨key, sh, al, ct, me⟩ := p
  rcases key with _ | ⟨kd⟩ <;> cases me <;> cases ct <;> cases al <;>
    cases sh <;> rfl

lemma takeTok_plusFree (tok : List Char) :
    ∀ s : List Char, '+' ∈ tok → '+' ∉ s → takeTok tok s = none := by
  induction tok with
  | nil => intro s h1 _; simp at h1
  | cons t ts ih =>
      intro s h1 h2
      cases s with
      | nil => rfl
      | cons c cs =>
          show (if c = t then takeTok ts cs else none) = none
          by_cases hct : c = t
          · rw [if_pos hct]
            rcases List.mem_cons.mp h1 with h1 | h1
            · exact absurd (by simp [hct, h1.symm] : '+' ∈ c :: cs) h2
            · exact ih cs h1 (fun hm => h2 (List.mem_cons_of_mem c hm))
          · rw [if_neg hct]

lemma stripMeta_plusFree (s : List Char) (h : '+' ∉ s) :
    stripTok metaTok s = (false, s) := by
  unfold stripTok
  rw [takeTok_plusFree metaTok s (by decide) h]

lemma stripCtrl_plusFree (s : List Char) (h : '+' ∉ s) :
    stripTok ctrlTok s = (false, s) := by
  unfold stripTok
  rw [takeTok_plusFree ctrlTok s (by decide) h]

lemma stripAlt_plusFree (s : List Char) (h : '+' ∉ s) :
    stripTok altTok s = (false, s) := by
  unfold stripTok
  rw [takeTok_plusFree altTok s (by decide) h]

lemma stripShift_plusFree (s : List Char) (h : '+' ∉ s) :
    stripTok shiftTok s = (false, s) := by
  unfold stripTok
  rw [takeTok_plusFree shiftTok s (by decide) h]

lemma dec4 (sb : Bool) (k : List Char) (hk : '+' ∉ k) :
    stripTok shiftTok (cond sb shiftTok [] ++ k) = (sb, k) := by
  cases sb
  · simpa using stripShift_plusFree k hk
  · rfl

lemma dec3 (ab sb : Bool) (k : List Char) (hk : '+' ∉ k) :
    stripTok altTok (cond ab altTok [] ++ (cond sb shiftTok [] ++ k)) =
      (ab, cond sb shiftTok [] ++ k) := by
  cases ab
  · cases sb
    · simpa using stripAlt_plusFree k hk
    · rfl
  · rfl

lemma dec2 (cb ab sb : Bool) (k : List Char) (hk : '+' ∉ k) :
    stripTok ctrlTok
        (cond cb ctrlTok [] ++ (cond ab altTok [] ++
          (cond sb shiftTok [] ++ k))) =
      (cb, cond ab altTok [] ++ (cond sb shiftTok [] ++ k)) := by
  cases cb
  · cases ab
    · cases sb
      · simpa using stripCtrl_plusFree k hk
      · rfl
    · rfl
  · rfl

lemma dec1 (mb cb ab sb : Bool) (k : List Char) (hk : '+' ∉ k) :
    stripTok metaTok
        (cond mb metaTok [] ++ (cond cb ctrlTok [] ++
          (cond ab altTok [] ++ (cond sb shiftTok [] ++ k)))) =
      (mb, cond cb ctrlTok [] ++ (cond ab altTok [] ++
        (cond sb shiftTok [] ++ k))) := by
  cases mb
  · cases cb
    · cases ab
      · cases sb
        · simpa using stripMeta_plusFree k hk
        · rfl
      · rfl
    · rfl
  · rfl

lemma decode_correct (mb cb ab sb : Bool) (k : List Char) (hk : '+' ∉ k) :
    decodeFlags
        (cond mb metaTok [] ++ (cond cb ctrlTok [] ++
          (cond ab altTok [] ++ (cond sb shiftTok [] ++ k)))) =
      (mb, cb, ab, sb, k) := by
  simp only [decodeFlags, dec1 mb cb ab sb k hk, dec2 cb ab sb k hk,
    dec3 ab sb k hk, dec4 sb k hk]

/-- C9 counterexample: two `KeyPress` values with different
(key, shift, alt, ctrl, meta) tuples whose canonical strings coincide —
the bare key `"Ctrl + a"` serializes exactly like Ctrl-modified `"a"` —
so `serialize` is not injective as claimed. -/
theorem c9_counterexample :
    (KeyPress.just "Ctrl + a").serialize =
        (⟨some "a", false, false, true, false⟩ : KeyPress).serialize ∧
      KeyPress.just "Ctrl + a" ≠ ⟨some "a", false, false, true, false⟩ := by
  decide

/-- C9 amended: `serialize` is injective on the `KeyPress` values whose key
is an actual string (not the null/undefined defensive case) containing no
`'+'` character: on those, equal canonical strings force equal
(key, shift, alt, ctrl, meta) tuples.  (Key strings containing `'+'` can
collide with the fixed `'... + '` modifier markers, as the counterexample
shows.) -/
theorem c9_amended (p q : KeyPress) (kp kq : String)
    (hp : p.key = some kp) (hkp : '+' ∉ kp.data)
    (hq : q.key = some kq) (hkq : '+' ∉ kq.data)
    (hs : p.serialize = q.serialize) : p = q := by
  have hd : (p.text).data = (q.text).data := congrArg String.data hs
  rw [text_data, text_data, hp, hq] at hd
  simp only [keyOrNull] at hd
  have h2 := congrArg decodeFlags hd
  rw [decode_correct p.meta p.ctrl p.alt p.shift kp.data hkp,
    decode_correct q.meta q.ctrl q.alt q.shift kq.data hkq] at h2
  simp only [Prod.mk.injEq] at h2
  obtain ⟨hme, hct, hal, hsh, hkd⟩ := h2
  have hkk : kp = kq := by
    cases kp
    cases kq
    exact congrArg String.mk hkd
  obtain ⟨pk, psh, pal, pct, pme⟩ := p
  obtain ⟨qk, qsh, qal, qct, qme⟩ := q
  simp only at hp hq hme hct hal hsh
  rw [hp, hq, hkk, hme, hct, hal, hsh]

/-- C9 amended witness: the amended theorem applied at the concrete
plus-free press `h`. -/
theorem c9_witness : KeyPress.just "h" = KeyPress.just "h" :=
  c9_amended (KeyPress.just "h") (KeyPress.just "h") "h" "h" rfl (by decide)
    rfl (by decide) rfl

lemma get_set_self : ∀ (cs : TrieChildren) (k : String) (c : TrieNode),
    (cs.set k c).get k = some c
  | .nil, k, c => by simp [TrieChildren.set, TrieChildren.get]
  | .cons k' c' rest, k, c => by
      by_cases h : k' = k
      · simp [TrieChildren.set, TrieChildren.get, h]
      · simp [TrieChildren.set, TrieChildren.get, h, get_set_self rest k c]

lemma addGo_dup (s : List String) :
    ∀ (t : TrieNode) (v1 v2 : KeyMap), (addGo t s v1).2 = false →
      (addGo (addGo t s v1).1 s v2).2 = true := by
  induction s with
  | nil =>
      intro t v1 v2 h
      obtain ⟨tv, tc⟩ := t
      cases tv with
      | some w => simp [addGo, TrieNode.value] at h
      | none => rfl
  | cons k rest ih =>
      intro t v1 v2 h
      obtain ⟨tv, tc⟩ := t
      simp only [addGo, TrieNode.children] at h ⊢
      rw [get_set_self]
      exact ih _ v1 v2 h

lemma addGo_prefix_null (s : List String) :
    ∀ (a : String) (r : List String) (v : KeyMap) (t : TrieNode),
      ∃ n, bestMatchKeys (addGo t (s ++ a :: r) v).1 s = some n ∧
        n.value = some none := by
  induction s with
  | nil =>
      intro a r v t
      exact ⟨_, rfl, rfl⟩
  | cons k s' ih =>
      intro a r v t
      obtain ⟨n, hn, hv⟩ := ih a r v
        (match t.children.get k with
          | some c => c
          | none => .mk none .nil)
      refine ⟨n, ?_, hv⟩
      simp only [List.cons_append, addGo, bestMatchKeys, TrieNode.children]
      rw [get_set_self]
      exact hn

lemma addGo_throws_on_valued (s : List String) :
    ∀ (t : TrieNode) (v : KeyMap) (n : TrieNode),
      bestMatchKeys t s = some n → n.value ≠ none →
      (addGo t s v).2 = true := by
  induction s with
  | nil =>
      intro t v n hb hv
      have ht : t = n := by simpa [bestMatchKeys] using hb
      subst ht
      obtain ⟨tv, tc⟩ := t
      cases tv with
      | none => exact absurd rfl hv
      | some w => rfl
  | cons k rest ih =>
      intro t v n hb hv
      obtain ⟨tv, tc⟩ := t
      simp only [bestMatchKeys, TrieNode.children] at hb
      cases hc : tc.get k with
      | none => simp [hc] at hb
      | some c =>
          simp only [hc] at hb
          simp only [addGo, TrieNode.children, hc]
          exact ih c v n hb hv

lemma addGo_fresh (s : List String) :
    ∀ v : KeyMap, addGo (.mk none .nil) s v = (pathTrie s v, false) := by
  induction s with
  | nil => intro v; rfl
  | cons k rest ih =>
      intro v
      simp only [addGo, TrieNode.children, TrieChildren.get, pathTrie,
        TrieChildren.set, ih]

lemma pathTrie_terminal (s : List String) :
    ∀ v : KeyMap,
      bestMatchKeys (pathTrie s v) s = some (.mk (some (some v)) .nil) := by
  induction s with
  | nil => intro v; rfl
  | cons k rest ih =>
      intro v
      simp only [pathTrie, bestMatchKeys, TrieNode.children, TrieChildren.get,
        if_pos rfl]
      exact ih v

lemma addGo_diverge (pre : List String) :
    ∀ (a b : String) (r1 r2 : List String) (v1 v2 : KeyMap), a ≠ b →
      (addGo (pathTrie (pre ++ a :: r1) v1) (pre ++ b :: r2) v2).2 = false ∧
      bestMatchKeys (addGo (pathTrie (pre ++ a :: r1) v1) (pre ++ b :: r2)
          v2).1 (pre ++ a :: r1) = some (.mk (some (some v1)) .nil) ∧
      bestMatchKeys (addGo (pathTrie (pre ++ a :: r1) v1) (pre ++ b :: r2)
          v2).1 (pre ++ b :: r2) = some (.mk (some (some v2)) .nil) := by
  induction pre with
  | nil =>
      intro a b r1 r2 v1 v2 hab
      simp only [List.nil_append, pathTrie, addGo, TrieNode.children,
        TrieChildren.get, TrieChildren.set, if_neg hab, addGo_fresh,
        bestMatchKeys, if_pos rfl]
      exact ⟨by trivial, pathTrie_terminal r1 v1, pathTrie_terminal r2 v2⟩
  | cons k pre' ih =>
      intro a b r1 r2 v1 v2 hab
      obtain ⟨h1, h2, h3⟩ := ih a b r1 r2 v1 v2 hab
      simp only [List.cons_append, pathTrie, addGo, TrieNode.children,
        TrieChildren.get, TrieChildren.set, if_pos rfl, bestMatchKeys]
      exact ⟨h1, h2, h3⟩

/-- C1 counterexample: inserting `kmAB` (sequence `[a, b]`) and then `kmA`
(sequence `[a]`, a strict prefix, a different sequence) into one index does
NOT succeed: the second insert raises `'Duplicate keymap'`, because
`addChild` had already overwritten the value slot of the node at `[a]` with
null and `Trie.add` tests `value !== undefined`. -/
theorem c1_counterexample :
    (Trie.add emptyTrie kmAB).2 = false ∧
      (Trie.add (Trie.add emptyTrie kmAB).1 kmA).2 = true := by
  decide

/-- C1 amended: (1) inserting two bindings with identical serialized
sequences raises `'Duplicate keymap'` on the second insert; (2) when one
binding's serialized sequence is a strict prefix of an already-inserted
binding's, the insert of the shorter raises `'Duplicate keymap'`; (3) when
the longer is inserted (in particular after the shorter), the node at the
shorter sequence is left with a null value slot — the shorter binding's value
is silently erased rather than kept retrievable; (4) inserting two bindings
whose serialized sequences diverge at some shared position into a fresh
index succeeds for both, and both stay independently retrievable via
`bestMatch` of their full sequences. -/
theorem c1_amended :
    (∀ (t : TrieNode) (km1 km2 : KeyMap),
      km1.sequence.map KeyPress.serialize =
          km2.sequence.map KeyPress.serialize →
      (Trie.add t km1).2 = false →
      (Trie.add (Trie.add t km1).1 km2).2 = true) ∧
    (∀ (t : TrieNode) (km1 km2 : KeyMap) (a : String) (r : List String),
      km1.sequence.map KeyPress.serialize =
          (km2.sequence.map KeyPress.serialize) ++ a :: r →
      (Trie.add (Trie.add t km1).1 km2).2 = true) ∧
    (∀ (t : TrieNode) (km : KeyMap) (s : List String) (a : String)
        (r : List String),
      km.sequence.map KeyPress.serialize = s ++ a :: r →
      ∃ n, bestMatchKeys (Trie.add t km).1 s = some n ∧
        n.value = some none) ∧
    (∀ (km1 km2 : KeyMap) (pre : List String) (a b : String)
        (r1 r2 : List String), a ≠ b →
      km1.sequence.map KeyPress.serialize = pre ++ a :: r1 →
      km2.sequence.map KeyPress.serialize = pre ++ b :: r2 →
      (Trie.add emptyTrie km1).2 = false ∧
      (Trie.add (Trie.add emptyTrie km1).1 km2).2 = false ∧
      Trie.bestMatch (Trie.add (Trie.add emptyTrie km1).1 km2).1
          km1.sequence = some (.mk (some (some km1)) .nil) ∧
      Trie.bestMatch (Trie.add (Trie.add emptyTrie km1).1 km2).1
          km2.sequence = some (.mk (some (some km2)) .nil)) := by
  refine ⟨?_, ?_, ?_, ?_⟩
  · intro t km1 km2 hseq h1
    unfold Trie.add at h1 ⊢
    rw [← hseq]
    exact addGo_dup _ t km1 km2 h1
  · intro t km1 km2 a r hseq
    unfold Trie.add
    rw [hseq]
    obtain ⟨n, hn, hv⟩ :=
      addGo_prefix_null (km2.sequence.map KeyPress.serialize) a r km1 t
    refine addGo_throws_on_valued _ _ km2 n hn ?_
    rw [hv]
    exact Option.some_ne_none none
  · intro t km s a r hseq
    unfold Trie.add
    rw [hseq]
    exact addGo_prefix_null s a r km t
  · intro km1 km2 pre a b r1 r2 hab h1 h2
    unfold Trie.add Trie.bestMatch
    rw [h1, h2]
    rw [show addGo emptyTrie (pre ++ a :: r1) km1 =
        (pathTrie (pre ++ a :: r1) km1, false) from
      addGo_fresh (pre ++ a :: r1) km1]
    obtain ⟨hd1, hd2, hd3⟩ := addGo_diverge pre a b r1 r2 km1 km2 hab
    exact ⟨rfl, hd1, hd2, hd3⟩

/-- C1 amended witness: part (1) applied to two concrete bindings with the
same one-press sequence; part (4) applied to the concrete diverging bindings
`[a, b]` and `[a]`-free pair `[a]`/`[c]`. -/
theorem c1_witness :
    (Trie.add (Trie.add emptyTrie kmA).1 ⟨"cmd3", [KeyPress.just "a"]⟩).2 =
      true :=
  c1_amended.1 emptyTrie kmA ⟨"cmd3", [KeyPress.just "a"]⟩ rfl (by decide)

lemma advance_eq_core (m : MatchMachine) (p : KeyPress)
    (h1 : m.currentState ≠ .SuccessMatch)
    (h2 : m.currentState ≠ .InvalidMatch) :
    m.advance p = m.advanceCore p := by
  unfold MatchMachine.advance
  rw [if_neg]
  rintro (h | h)
  · exact h1 h
  · exact h2 h

lemma advance_eq_core_reset (m : MatchMachine) (p : KeyPress)
    (h : m.currentState = .SuccessMatch ∨ m.currentState = .InvalidMatch) :
    m.advance p = MatchMachine.advanceCore ⟨m.trie, .NoMatch, [], []⟩ p := by
  unfold MatchMachine.advance
  rw [if_pos h]

lemma advanceCore_noMatch (t : TrieNode) (sq : List KeyPress)
    (ms : List (Optional KeyMap)) (p : KeyPress) :
    MatchMachine.advanceCore ⟨t, .NoMatch, sq, ms⟩ p =
      if MatchMachine.classify (Trie.bestMatch t (sq ++ [p])) = .NoMatch then
        ⟨t, .NoMatch, sq, matchesFor t (sq ++ [p])⟩
      else if MatchMachine.classify (Trie.bestMatch t (sq ++ [p])) =
          .FullMatch then
        ⟨t, .SuccessMatch, sq ++ [p], matchesFor t (sq ++ [p])⟩
      else ⟨t, .StartedMatch, sq ++ [p], matchesFor t (sq ++ [p])⟩ :=
  rfl

lemma advanceCore_prog (st : MatchMachineState)
    (hst : st = .StartedMatch ∨ st = .RetainedMatch ∨ st = .ImprovedMatch)
    (t : TrieNode) (sq : List KeyPress) (ms : List (Optional KeyMap))
    (p : KeyPress) :
    MatchMachine.advanceCore ⟨t, st, sq, ms⟩ p =
      if p.classification = .NoKey then
        ⟨t, .RetainedMatch, sq, matchesFor t (sq ++ [p])⟩
      else if MatchMachine.classify (Trie.bestMatch t (sq ++ [p])) =
          .NoMatch then
        ⟨t, .InvalidMatch, sq ++ [p], matchesFor t (sq ++ [p])⟩
      else if MatchMachine.classify (Trie.bestMatch t (sq ++ [p])) =
          .FullMatch then
        ⟨t, .SuccessMatch, sq ++ [p], matchesFor t (sq ++ [p])⟩
      else ⟨t, .ImprovedMatch, sq ++ [p], matchesFor t (sq ++ [p])⟩ := by
  rcases hst with h | h | h <;> subst h <;> rfl

lemma matchesFor_of_none {t : TrieNode} {seq : List KeyPress}
    (h : Trie.bestMatch t seq = none) : matchesFor t seq = [] := by
  simp [matchesFor, h]

lemma classify_eq_noMatch (bm : Option TrieNode) :
    MatchMachine.classify bm = .NoMatch ↔ bm = none := by
  cases bm with
  | none => simp [MatchMachine.classify]
  | some n =>
      simp only [MatchMachine.classify]
      by_cases h : n.isLeaf <;> simp [h]

/-- Main invariant step: if a single `advance` call returns the `NoMatch`
state, then (given the machine's own `NoMatch` states carry an empty
sequence) the resulting sequence and match set are both empty. -/
lemma advance_nomatch_result (m : MatchMachine) (p : KeyPress)
    (hm : m.currentState = .NoMatch → m.currentSequence = []) :
    (m.advance p).currentState = .NoMatch →
      (m.advance p).currentSequence = [] ∧
        (m.advance p).currentMatches = [] := by
  obtain ⟨t, st, sq, ms⟩ := m
  cases st with
  | NoMatch =>
      have hsq : sq = [] := hm rfl
      subst hsq
      rw [advance_eq_core _ _ (by simp) (by simp), advanceCore_noMatch]
      split_ifs with h1 h2
      · intro _
        refine ⟨rfl, ?_⟩
        exact matchesFor_of_none ((classify_eq_noMatch _).mp h1)
      · intro h; cases h
      · intro h; cases h
  | StartedMatch =>
      rw [advance_eq_core _ _ (by simp) (by simp),
        advanceCore_prog _ (Or.inl rfl)]
      split_ifs <;> intro h <;> cases h
  | RetainedMatch =>
      rw [advance_eq_core _ _ (by simp) (by simp),
        advanceCore_prog _ (Or.inr (Or.inl rfl))]
      split_ifs <;> intro h <;> cases h
  | ImprovedMatch =>
      rw [advance_eq_core _ _ (by simp) (by simp),
        advanceCore_prog _ (Or.inr (Or.inr rfl))]
      split_ifs <;> intro h <;> cases h
  | SuccessMatch =>
      rw [advance_eq_core_reset _ _ (Or.inl rfl), advanceCore_noMatch]
      split_ifs with h1 h2
      · intro _
        refine ⟨rfl, ?_⟩
        exact matchesFor_of_none ((classify_eq_noMatch _).mp h1)
      · intro h; cases h
      · intro h; cases h
  | InvalidMatch =>
      rw [advance_eq_core_reset _ _ (Or.inr rfl), advanceCore_noMatch]
      split_ifs with h1 h2
      · intro _
        refine ⟨rfl, ?_⟩
        exact matchesFor_of_none ((classify_eq_noMatch _).mp h1)
      · intro h; cases h
      · intro h; cases h

lemma foldl_idle_inv (ps : List KeyPress) :
    ∀ m : MatchMachine,
      (m.currentState = .NoMatch → m.currentSequence = []) →
      (ps.foldl MatchMachine.advance m).currentState = .NoMatch →
      (ps.foldl MatchMachine.advance m).currentSequence = [] := by
  induction ps with
  | nil => exact fun m hm => hm
  | cons p ps ih =>
      intro m hm
      exact ih _ (fun h => (advance_nomatch_result m p hm h).1)

/-- C10: starting from a fresh engine, whenever the latest `advance` call
returns the idle `NoMatch` state, the buffered sequence and the match set
are both empty. -/
theorem c10_idle_empty (t : TrieNode) (ps : List KeyPress) (p : KeyPress)
    (h : ((run t ps).advance p).currentState = .NoMatch) :
    ((run t ps).advance p).currentSequence = [] ∧
      ((run t ps).advance p).currentMatches = [] :=
  advance_nomatch_result (run t ps) p
    (foldl_idle_inv ps (mkMatchMachine t) (fun _ => rfl)) h

/-- C10 witness: the theorem applied to the concrete trie `exTrie`, no prior
presses, and an unbound key. -/
theorem c10_witness :
    ((run exTrie []).advance (KeyPress.just "z")).currentSequence = [] ∧
      ((run exTrie []).advance (KeyPress.just "z")).currentMatches = [] :=
  c10_idle_empty exTrie [] (KeyPress.just "z") (by decide)

/-- C7: from a terminal state (`SuccessMatch` or `InvalidMatch`), one
`advance` call behaves exactly like advancing a freshly constructed machine
over the same trie with the same press: same state, sequence, and match set,
with the press fully consumed by the single call. -/
theorem c7_terminal_reset (m : MatchMachine) (p : KeyPress)
    (h : m.currentState = .SuccessMatch ∨ m.currentState = .InvalidMatch) :
    m.advance p = (mkMatchMachine m.trie).advance p := by
  obtain ⟨t, st, sq, ms⟩ := m
  rcases h with h | h <;> subst h <;> rfl

/-- C7 witness: the theorem applied to a concrete machine in the
`SuccessMatch` state. -/
theorem c7_witness :
    MatchMachine.advance
        ⟨exTrie, .SuccessMatch, [KeyPress.just "a"], [some (some kmAB)]⟩
        (KeyPress.just "a") =
      (mkMatchMachine exTrie).advance (KeyPress.just "a") :=
  c7_terminal_reset
    ⟨exTrie, .SuccessMatch, [KeyPress.just "a"], [some (some kmAB)]⟩
    (KeyPress.just "a") (Or.inl rfl)

/-- C8: `fullMatch` returns the unique recorded entry when the state is
`SuccessMatch` and the match set is a singleton, returns the null result
(`some none`) on `SuccessMatch` whenever the match set size differs from 1
(never picking an arbitrary candidate), and returns the null result in every
non-`SuccessMatch` state. -/
theorem c8_fullMatch_contract (m : MatchMachine) :
    (∀ x, m.currentState = .SuccessMatch → m.currentMatches = [x] →
      m.fullMatch = x) ∧
    (m.currentState = .SuccessMatch → m.currentMatches.length ≠ 1 →
      m.fullMatch = some none) ∧
    (m.currentState ≠ .SuccessMatch → m.fullMatch = some none) := by
  refine ⟨?_, ?_, ?_⟩
  · intro x hs hm
    simp [MatchMachine.fullMatch, MatchMachine.allMatches, hs, hm]
  · intro hs hne
    simp [MatchMachine.fullMatch, MatchMachine.allMatches, hs, hne]
  · intro hs
    simp [MatchMachine.fullMatch, MatchMachine.allMatches, hs]

/-- C8 witness: the contract applied to a concrete `SuccessMatch` machine
with a singleton match set. -/
theorem c8_witness :
    MatchMachine.fullMatch ⟨exTrie, .SuccessMatch, [], [some (some kmA)]⟩ =
      some (some kmA) :=
  (c8_fullMatch_contract
    ⟨exTrie, .SuccessMatch, [], [some (some kmA)]⟩).1 (some (some kmA)) rfl
    rfl

/-- C2 counterexample: over the trie holding the binding `[a, b]`, after
pressing `a` the run is in progress (`StartedMatch`) with a non-empty match
set; a bare Shift press then yields `RetainedMatch` with an unchanged
sequence, but the reported match set is NOT unchanged — it has been
recomputed (to `[]`) with the modifier press appended before the pop. -/
theorem c2_counterexample :
    exM1.currentState = .StartedMatch ∧
      shiftPress.classification = .NoKey ∧
      exM2.currentState = .RetainedMatch ∧
      exM2.currentSequence = exM1.currentSequence ∧
      exM2.allMatches ≠ exM1.allMatches := by
  decide

/-- C2 amended: advancing an in-progress engine (`StartedMatch`,
`RetainedMatch`, or `ImprovedMatch`) with a modifier-only press yields
`RetainedMatch` and leaves the buffered sequence unchanged, but the
reported match set is recomputed from the buffered sequence with the
modifier press appended (hence empty whenever that extended sequence
matches no prefix), rather than kept at its previous value. -/
theorem c2_amended (m : MatchMachine) (p : KeyPress)
    (hs : m.currentState = .StartedMatch ∨ m.currentState = .RetainedMatch ∨
      m.currentState = .ImprovedMatch)
    (hp : p.classification = .NoKey) :
    m.advance p =
      ⟨m.trie, .RetainedMatch, m.currentSequence,
        matchesFor m.trie (m.currentSequence ++ [p])⟩ := by
  obtain ⟨t, st, sq, ms⟩ := m
  have h1 : st ≠ .SuccessMatch := by rcases hs with h | h | h <;> simp_all
  have h2 : st ≠ .InvalidMatch := by rcases hs with h | h | h <;> simp_all
  rw [advance_eq_core _ _ h1 h2, advanceCore_prog st hs, if_pos hp]

/-- C2 amended witness: the amended theorem applied to a concrete in-progress
machine and the bare Shift press. -/
theorem c2_witness :
    MatchMachine.advance
        ⟨exTrie, .StartedMatch, [KeyPress.just "a"], [some (some kmAB)]⟩
        shiftPress =
      ⟨exTrie, .RetainedMatch, [KeyPress.just "a"],
        matchesFor exTrie ([KeyPress.just "a"] ++ [shiftPress])⟩ :=
  c2_amended
    ⟨exTrie, .StartedMatch, [KeyPress.just "a"], [some (some kmAB)]⟩
    shiftPress (Or.inl rfl) (by decide)

/-- C6: (a) a fresh/idle engine fed a single NormalKey press whose canonical
string labels no edge out of the trie root returns the idle `NoMatch` state
with nothing retained in the buffer (and an empty match set) — not
`InvalidMatch`; (b) `InvalidMatch` can only result when the machine was
already in an in-progress state (`StartedMatch`, `RetainedMatch`, or
`ImprovedMatch`). -/
theorem c6_nomatch_passthrough :
    (∀ (m : MatchMachine) (p : KeyPress),
      m.currentState = .NoMatch → m.currentSequence = [] →
      p.classification = .NormalKey →
      m.trie.children.get p.serialize = none →
      m.advance p = ⟨m.trie, .NoMatch, [], []⟩) ∧
    (∀ (m : MatchMachine) (p : KeyPress),
      (m.advance p).currentState = .InvalidMatch →
      m.currentState = .StartedMatch ∨ m.currentState = .RetainedMatch ∨
        m.currentState = .ImprovedMatch) := by
  constructor
  · intro m p hst hsq _hcl hroot
    obtain ⟨t, st, sq, ms⟩ := m
    simp only at hst hsq hroot
    subst hst
    subst hsq
    have hbm : Trie.bestMatch t ([] ++ [p]) = none := by
      simp [Trie.bestMatch, bestMatchKeys, hroot]
    rw [advance_eq_core _ _ (by simp) (by simp), advanceCore_noMatch,
      if_pos (by rw [hbm]; rfl)]
    rw [matchesFor_of_none hbm]
  · intro m p
    obtain ⟨t, st, sq, ms⟩ := m
    cases st with
    | NoMatch =>
        rw [advance_eq_core _ _ (by simp) (by simp), advanceCore_noMatch]
        split_ifs <;> intro h <;> cases h
    | StartedMatch => exact fun _ => Or.inl rfl
    | RetainedMatch => exact fun _ => Or.inr (Or.inl rfl)
    | ImprovedMatch => exact fun _ => Or.inr (Or.inr rfl)
    | SuccessMatch =>
        rw [advance_eq_core_reset _ _ (Or.inl rfl), advanceCore_noMatch]
        split_ifs <;> intro h <;> cases h
    | InvalidMatch =>
        rw [advance_eq_core_reset _ _ (Or.inr rfl), advanceCore_noMatch]
        split_ifs <;> intro h <;> cases h

/-- C6 witness: part (a) applied to the fresh engine over `exTrie` and the
unbound key `z`. -/
theorem c6_witness :
    MatchMachine.advance (mkMatchMachine exTrie) (KeyPress.just "z") =
      ⟨exTrie, .NoMatch, [], []⟩ :=
  c6_nomatch_passthrough.1 (mkMatchMachine exTrie) (KeyPress.just "z") rfl
    rfl (by decide) (by rfl)

/-- C3 counterexample: in main.ts, a `Backspace` press classifies as
`NormalKey`, not `SpecialKey` as claimed. -/
theorem c3_counterexample :
    (KeyPress.just "Backspace").classification = .NormalKey ∧
      (KeyPress.just "Backspace").classification ≠ .SpecialKey := by
  decide

/-- C3 amended: in main.ts, classification returns `NoKey` exactly for a
missing key or a bare modifier identifier, `SpecialKey` exactly for `Enter`
or `Escape` (`Backspace` is a `NormalKey` in this revision), and `NormalKey`
for every other key; in the part_003 revision, `SpecialKey` additionally
covers `Backspace`. -/
theorem c3_amended (p : KeyPress) :
    (p.classification = .NoKey ↔
      (p.key = none ∨ p.key = some "Alt" ∨ p.key = some "Control" ∨
        p.key = some "Shift" ∨ p.key = some "Meta" ∨
        p.key = some "AltGraph")) ∧
    (p.classification = .SpecialKey ↔
      (p.key = some "Enter" ∨ p.key = some "Escape")) ∧
    (p.classification = .NormalKey ↔
      (¬(p.key = none ∨ p.key = some "Alt" ∨ p.key = some "Control" ∨
          p.key = some "Shift" ∨ p.key = some "Meta" ∨
          p.key = some "AltGraph") ∧
        ¬(p.key = some "Enter" ∨ p.key = some "Escape"))) ∧
    (P3.classification p = .SpecialKey ↔
      (p.key = some "Enter" ∨ p.key = some "Escape" ∨
        p.key = some "Backspace")) := by
  obtain ⟨pk, psh, pal, pct, pme⟩ := p
  refine ⟨?_, ?_, ?_, ?_⟩ <;>
    · simp only [KeyPress.classification, P3.classification]
      split_ifs with h1 h2 <;> (try simp_all) <;>
        (try (rcases h1 with h | h | h | h | h | h <;> subst h <;> decide))

/-- C3 amended witness: the amended characterization applied to the concrete
`Enter` press. -/
theorem c3_witness : (KeyPress.just "Enter").classification = .SpecialKey :=
  ((c3_amended (KeyPress.just "Enter")).2.1).mpr (Or.inl rfl)

/-- C4 counterexample: from a reachable `PendingDeletion` state (presses
`a` then `Escape`), a press that is neither Enter-keyed nor Backspace (`x`)
does NOT leave the machine pending: main.ts moves it to `DeletedKey`
(popping two presses). -/
theorem c4_counterexample :
    (rRun [KeyPress.just "a", KeyPress.just "Escape"]).currentState =
        .PendingDeletion ∧
      (rRun [KeyPress.just "a", KeyPress.just "Escape",
          KeyPress.just "x"]).currentState = .DeletedKey := by
  decide

/-- C4 amended: in main.ts, ANY press whose key is not `Enter` finalizes a
pending state: from `PendingAddition` the pending special key is popped and
the machine moves to `RetainedKeys`; from `PendingDeletion` two presses are
popped and the machine moves to `DeletedKey`.  The claimed stay-pending
behavior holds in the part_003 revision: there, any press that is neither
Enter-keyed nor Backspace leaves a pending machine completely unchanged. -/
theorem c4_amended :
    (∀ (m : RegisterMachine) (e : KeyPress), e.key ≠ some "Enter" →
      (m.currentState = .PendingAddition →
        m.advance e = ⟨.RetainedKeys, m.currentSequence.dropLast⟩) ∧
      (m.currentState = .PendingDeletion →
        m.advance e =
          ⟨.DeletedKey, m.currentSequence.dropLast.dropLast⟩)) ∧
    (∀ (m : P3.RegisterMachine) (e : KeyPress),
      (m.currentState = .PendingAddition ∨
        m.currentState = .PendingDeletion) →
      e.key ≠ some "Enter" → e.key ≠ some "Backspace" →
      m.advance e = m) := by
  constructor
  · intro m e hke
    obtain ⟨st, sq⟩ := m
    constructor <;> intro hst <;> simp only at hst <;> subst hst <;>
      simp [RegisterMachine.advance, RegisterMachine.advanceCore, hke]
  · intro m e hst hke hkb
    obtain ⟨st, sq⟩ := m
    rcases hst with h | h <;> simp only at h <;> subst h <;>
      simp [P3.RegisterMachine.advance, P3.RegisterMachine.advanceCore, hke,
        hkb]

/-- C4 amended witness: the main.ts part applied to a concrete
`PendingAddition` machine and the press `x`. -/
theorem c4_witness :
    RegisterMachine.advance
        ⟨.PendingAddition, [KeyPress.just "a", KeyPress.just "Enter"]⟩
        (KeyPress.just "x") =
      ⟨.RetainedKeys, [KeyPress.just "a"]⟩ :=
  (c4_amended.1 ⟨.PendingAddition, [KeyPress.just "a", KeyPress.just "Enter"]⟩
    (KeyPress.just "x") (by decide)).1 rfl

/-- C5 counterexample: feeding `h`, `Enter`, `Backspace`, `Ctrl+Alt+Enter`
to a fresh `RegisterMachine` does NOT end in `FinishedRegistering` with
buffer `[h]`. -/
theorem c5_counterexample :
    ¬((rRun c5Presses).currentState = .FinishedRegistering ∧
      (rRun c5Presses).currentSequence = [KeyPress.just "h"]) := by
  decide

/-- C5 amended: the four presses `h`, `Enter`, `Backspace`,
`Ctrl+Alt+Enter` leave the machine in `PendingAddition` with buffer
`[h, Ctrl+Alt+Enter]` (the `Ctrl+Alt+Enter` arrives in a non-pending state,
so it is buffered as a new pending special key instead of finishing); one
further `Ctrl+Alt+Enter` press then yields `FinishedRegistering` with
buffer exactly `[h]`.  The part_003 revision behaves identically on this
scenario. -/
theorem c5_amended :
    rRun c5Presses =
        ⟨.PendingAddition, [KeyPress.just "h", KeyPress.ctrlAlt "Enter"]⟩ ∧
      rRun (c5Presses ++ [KeyPress.ctrlAlt "Enter"]) =
        ⟨.FinishedRegistering, [KeyPress.just "h"]⟩ ∧
      p3Run c5Presses =
        ⟨.PendingAddition, [KeyPress.just "h", KeyPress.ctrlAlt "Enter"]⟩ ∧
      p3Run (c5Presses ++ [KeyPress.ctrlAlt "Enter"]) =
        ⟨.FinishedRegistering, [KeyPress.just "h"]⟩ := by
  decide

end LeaderHotkeys
